import Mathlib

/-!
Verification development for the certimate certificate-orchestration core.

Shallow embedding of:
* the tencentcloud-cdn deployment poll loop
  (internal/pkg/core/deployer/providers/tencentcloud-cdn/tencentcloud_cdn.go),
* the ACME obtain driver with ARI retry (internal/certapply/client_certifier.go),
* the ctyun AO and ctyun ELB certificate-store upload-dedup protocols
  (pkg/core/ssl-manager/providers/ctcccloud-ao and ctcccloud-elb).

Go pointers to SDK response fields are modelled as `Option`; dereferencing a
`none` is a runtime nil-pointer panic, modelled as an explicit crash outcome.
Machine integers (int64 counters, unix timestamps) are modelled as `Int`;
none of the embedded code paths can overflow them. Context cancellation is
modelled as the context never being cancelled (the claims under study concern
runs that are not cancelled). Vendor network calls are modelled as oracles:
a list of successive responses, or a function from request to response.
-/

namespace Certimate

/-! ### tencentcloud-cdn deployment poll loop

Embeds `DeployerProvider.Deploy`, lines 140-183 of tencentcloud_cdn.go: the
loop issuing `ssl.DescribeHostDeployRecordDetail` requests until the observed
counts satisfy `succeeded + failed == total`, with `nil` count pointers other
than the total defaulting to 0, and a `nil` total pointer being an error. -/

/-- Model of the SDK response `DescribeHostDeployRecordDetailResponse.Response`:
each count field is a possibly-nil `*int64`. -/
structure TcdnPollResponse where
  runningTotalCount : Option Int
  successTotalCount : Option Int
  failedTotalCount : Option Int
  totalCount : Option Int
  deriving DecidableEq, Repr

/-- Outcome of the poll loop on a finite list of successive poll responses.
`finished` records the counts observed at the terminating poll and the number
of polls issued (the source then falls through to a plain success return);
`error` is the early `return nil, err` path; `pending` means the supplied
response list was exhausted while the loop would still be polling. -/
inductive TcdnPollResult where
  | error (msg : String)
  | finished (running succeeded failed total : Int) (polls : Nat)
  | pending
  deriving DecidableEq, Repr

/-- Counts extracted from one poll response exactly as the source does:
a nil pointer leaves the corresponding local variable at 0. -/
def TcdnPollResponse.running (r : TcdnPollResponse) : Int := r.runningTotalCount.getD 0

/-- Succeeded count with the nil-pointer-defaults-to-0 convention. -/
def TcdnPollResponse.succeeded (r : TcdnPollResponse) : Int := r.successTotalCount.getD 0

/-- Failed count with the nil-pointer-defaults-to-0 convention. -/
def TcdnPollResponse.failed (r : TcdnPollResponse) : Int := r.failedTotalCount.getD 0

/-- The poll loop of `Deploy`: for each successive response, a nil `TotalCount`
returns the protocol error; otherwise the loop breaks exactly when
`succeeded + failed == total`, else it sleeps 5s and polls again. The `polls`
field of `finished` counts the poll requests issued. -/
def tcdnPollLoop : List TcdnPollResponse → TcdnPollResult
  | [] => .pending
  | r :: rs =>
    match r.totalCount with
    | none => .error "unexpected deployment job status"
    | some total =>
      if r.succeeded + r.failed = total then
        .finished r.running r.succeeded r.failed total 1
      else
        match tcdnPollLoop rs with
        | .finished a b c d n => .finished a b c d (n + 1)
        | .error m => .error m
        | .pending => .pending

/-- Tail of `Deploy` after the poll loop: breaking out of the loop falls
through to `return &deployer.DeployResult{}, nil` — an unconditional success,
whatever the failed count was; the error branch returns the error. `none`
means the supplied response list ran out before the loop terminated. -/
def tcdnDeployPollOutcome (rs : List TcdnPollResponse) : Option (Except String Unit) :=
  match tcdnPollLoop rs with
  | .pending => none
  | .error m => some (.error m)
  | .finished _ _ _ _ _ => some (.ok ())

/-- Predicate: this poll response makes the loop break (terminate). -/
def tcdnStops (r : TcdnPollResponse) : Bool :=
  match r.totalCount with
  | none => false
  | some total => r.succeeded + r.failed == total

/-- Predicate: this poll response makes the loop sleep and poll again. -/
def tcdnGoes (r : TcdnPollResponse) : Bool :=
  match r.totalCount with
  | none => false
  | some total => r.succeeded + r.failed != total

/-- Unfolding of `tcdnStops` into its defining condition. -/
theorem tcdnStops_iff (r : TcdnPollResponse) :
    tcdnStops r = true ↔ ∃ t, r.totalCount = some t ∧ r.succeeded + r.failed = t := by
  unfold tcdnStops
  cases h : r.totalCount <;> simp

/-- Unfolding of `tcdnGoes` into its defining condition. -/
theorem tcdnGoes_iff (r : TcdnPollResponse) :
    tcdnGoes r = true ↔ ∃ t, r.totalCount = some t ∧ r.succeeded + r.failed ≠ t := by
  unfold tcdnGoes
  cases h : r.totalCount <;> simp

/-- Unfolding equation of the poll loop on a non-empty response list. -/
theorem tcdnPollLoop_cons (r : TcdnPollResponse) (rs : List TcdnPollResponse) :
    tcdnPollLoop (r :: rs) =
      match r.totalCount with
      | none => .error "unexpected deployment job status"
      | some total =>
        if r.succeeded + r.failed = total then
          .finished r.running r.succeeded r.failed total 1
        else
          match tcdnPollLoop rs with
          | .finished a b c d n => .finished a b c d (n + 1)
          | .error m => .error m
          | .pending => .pending := rfl

/-- A run of non-terminating responses followed by a response with a nil total
count drives the poll loop into the protocol error. -/
theorem tcdnPollLoop_error_of_nil_total (l1 : List TcdnPollResponse)
    (r : TcdnPollResponse) (l2 : List TcdnPollResponse)
    (hgo : ∀ x ∈ l1, tcdnGoes x = true) (hnil : r.totalCount = none) :
    tcdnPollLoop (l1 ++ r :: l2) = .error "unexpected deployment job status" := by
  induction l1 with
  | nil =>
    simp only [List.nil_append, tcdnPollLoop_cons, hnil]
  | cons x l1 ih =>
    obtain ⟨t, htc, hne⟩ := (tcdnGoes_iff x).mp (hgo x (by simp))
    have hrec := ih (fun y hy => hgo y (by simp [hy]))
    simp only [List.cons_append, tcdnPollLoop_cons, htc, if_neg hne, hrec]

/-- The poll loop reaches a `finished` state exactly on response sequences
consisting of zero or more non-terminating responses followed by a response
satisfying `succeeded + failed == total`. -/
theorem tcdnPollLoop_finished_iff (rs : List TcdnPollResponse) :
    (∃ a b c d n, tcdnPollLoop rs = .finished a b c d n) ↔
    (∃ l1 r l2, rs = l1 ++ r :: l2 ∧ tcdnStops r = true ∧
      ∀ x ∈ l1, tcdnGoes x = true) := by
  induction rs with
  | nil =>
    constructor
    · rintro ⟨a, b, c, d, n, h⟩
      simp [tcdnPollLoop] at h
    · rintro ⟨l1, r, l2, h, -, -⟩
      exact absurd h (by simp)
  | cons r rs ih =>
    constructor
    · rintro ⟨a, b, c, d, n, h⟩
      rw [tcdnPollLoop_cons] at h
      cases htc : r.totalCount with
      | none => simp only [htc] at h; exact absurd h (by simp)
      | some total =>
        simp only [htc] at h
        by_cases hsf : r.succeeded + r.failed = total
        · refine ⟨[], r, rs, rfl, ?_, by simp⟩
          exact (tcdnStops_iff r).mpr ⟨total, htc, hsf⟩
        · rw [if_neg hsf] at h
          cases hrec : tcdnPollLoop rs with
          | finished a' b' c' d' n' =>
            obtain ⟨l1, r', l2, heq, hstop, hgo⟩ := ih.mp ⟨a', b', c', d', n', hrec⟩
            refine ⟨r :: l1, r', l2, by rw [heq]; rfl, hstop, ?_⟩
            intro x hx
            rcases List.mem_cons.mp hx with hx | hx
            · subst hx
              exact (tcdnGoes_iff x).mpr ⟨total, htc, hsf⟩
            · exact hgo x hx
          | error m => rw [hrec] at h; simp at h
          | pending => rw [hrec] at h; simp at h
    · rintro ⟨l1, r', l2, heq, hstop, hgo⟩
      obtain ⟨t, htc, hsf⟩ := (tcdnStops_iff r').mp hstop
      cases l1 with
      | nil =>
        simp only [List.nil_append, List.cons.injEq] at heq
        obtain ⟨h1, h2⟩ := heq
        subst h1; subst h2
        refine ⟨r.running, r.succeeded, r.failed, t, 1, ?_⟩
        simp only [tcdnPollLoop_cons, htc, if_pos hsf]
      | cons x l1 =>
        simp only [List.cons_append, List.cons.injEq] at heq
        obtain ⟨h1, h2⟩ := heq
        subst h1
        obtain ⟨tx, hxtc, hxne⟩ := (tcdnGoes_iff r).mp (hgo r (by simp))
        obtain ⟨a, b, c, d, n, hrec⟩ :=
          ih.mpr ⟨l1, r', l2, h2, hstop, fun y hy => hgo y (by simp [hy])⟩
        refine ⟨a, b, c, d, n + 1, ?_⟩
        simp only [tcdnPollLoop_cons, hxtc, if_neg hxne, hrec]

/-- C2 (amended): the poll loop of the tencentcloud-cdn Deploy operation
terminates exactly when a poll response satisfies `succeeded + failed ==
total` (otherwise it sleeps the fixed interval and polls again); for the
poll-response sequence `{running, succeeded, failed, total} = {0,0,0,0}`
followed by `{0,3,2,5}`, the loop terminates already after the FIRST poll
with failure count 0, because the first response satisfies `0 + 0 == 0`. -/
theorem tcdn_poll_loop_termination :
    (∀ rs : List TcdnPollResponse,
      (∃ a b c d n, tcdnPollLoop rs = .finished a b c d n) ↔
      (∃ l1 r l2, rs = l1 ++ r :: l2 ∧ tcdnStops r = true ∧
        ∀ x ∈ l1, tcdnGoes x = true)) ∧
    tcdnPollLoop [⟨some 0, some 0, some 0, some 0⟩, ⟨some 0, some 3, some 2, some 5⟩] =
      .finished 0 0 0 0 1 :=
  ⟨tcdnPollLoop_finished_iff, by decide⟩

/-- C2 counterexample: on the poll sequence `{0,0,0,0}` then `{0,3,2,5}` the
claim asserts termination after the second poll with failure count 2, but the
loop terminates after the first poll (poll count 1) with failure count 0. -/
theorem tcdn_poll_sequence_counterexample :
    tcdnPollLoop [⟨some 0, some 0, some 0, some 0⟩, ⟨some 0, some 3, some 2, some 5⟩] =
      .finished 0 0 0 0 1 ∧
    TcdnPollResult.finished 0 0 0 0 1 ≠ TcdnPollResult.finished 0 3 2 5 2 := by
  constructor <;> decide

/-- C2 witness: instantiating the termination characterization on a concrete
one-response sequence that satisfies the stop condition. -/
theorem tcdn_poll_loop_termination_witness :
    ∃ a b c d n,
      tcdnPollLoop [⟨some 1, some 2, some 3, some 5⟩] = .finished a b c d n :=
  ((tcdn_poll_loop_termination.1 [⟨some 1, some 2, some 3, some 5⟩]).mpr
    ⟨[], ⟨some 1, some 2, some 3, some 5⟩, [], rfl, by decide, by simp⟩)

/-- C1 (amended): when the poll loop terminates with `succeeded + failed ==
total`, the tencentcloud-cdn Deploy operation returns success regardless of
the failed count (the observed counts appear only in log output, not in the
returned value); and whenever the loop reaches a poll response whose total
count is missing, Deploy returns the `unexpected deployment job status`
error — never success. -/
theorem tcdn_deploy_outcome :
    (∀ rs a b c d n, tcdnPollLoop rs = .finished a b c d n →
      tcdnDeployPollOutcome rs = some (.ok ())) ∧
    (∀ l1 r l2, (∀ x ∈ l1, tcdnGoes x = true) → r.totalCount = none →
      tcdnDeployPollOutcome (l1 ++ r :: l2) =
        some (.error "unexpected deployment job status")) := by
  constructor
  · intro rs a b c d n h
    unfold tcdnDeployPollOutcome
    rw [h]
  · intro l1 r l2 hgo hnil
    unfold tcdnDeployPollOutcome
    rw [tcdnPollLoop_error_of_nil_total l1 r l2 hgo hnil]

/-- C1 witness: a concrete run terminating with `failed > 0` yields success,
and a concrete run whose second response lacks a total yields the protocol
error. -/
theorem tcdn_deploy_outcome_witness :
    tcdnDeployPollOutcome [⟨some 0, some 1, some 4, some 5⟩] = some (.ok ()) ∧
    tcdnDeployPollOutcome
        [⟨some 1, some 0, some 0, some 5⟩, ⟨none, none, none, none⟩] =
      some (.error "unexpected deployment job status") :=
  ⟨tcdn_deploy_outcome.1 [⟨some 0, some 1, some 4, some 5⟩] 0 1 4 5 1 (by decide),
   tcdn_deploy_outcome.2 [⟨some 1, some 0, some 0, some 5⟩] ⟨none, none, none, none⟩ []
     (by intro x hx; simp at hx; subst hx; decide) rfl⟩

/-- C1 counterexample: a poll loop terminating with observed counts
`{running 0, succeeded 0, failed 5, total 5}` — so `failed > 0` — makes
Deploy return success, not a failure carrying the counts. -/
theorem tcdn_failed_run_returns_success :
    tcdnPollLoop [⟨some 0, some 0, some 5, some 5⟩] = .finished 0 0 5 5 1 ∧
    tcdnDeployPollOutcome [⟨some 0, some 0, some 5, some 5⟩] = some (.ok ()) :=
  ⟨by decide, rfl⟩

/-! ### ACME obtain driver with ARI retry

Embeds `ACMEClient.sendObtainCertificateRequest`, lines 87-187 of
internal/certapply/client_certifier.go. The challenge-solver configuration
(lines 92-151, whose provider registries are outside the excerpt) either
fails with an error before any ACME call, or succeeds; it is modelled by an
`Except String Unit` parameter. The two possible calls to
`client.Certificate.Obtain` are answered by two oracle replies `o1`, `o2`
(the second is consulted only if a retry happens). The function returns the
list of order requests actually issued, paired with the result. -/

/-- Model of the lego `certificate.Resource` fields read by the driver. -/
structure AcmeResource where
  csr : String
  certificate : String
  issuerCertificate : String
  privateKey : String
  certUrl : String
  certStableUrl : String
  deriving DecidableEq, Repr

/-- Reply of one `client.Certificate.Obtain` call: success with a resource,
failure matching `acme.AlreadyReplacedError` via `errors.As`, or any other
failure. -/
inductive AcmeObtainReply where
  | ok (res : AcmeResource)
  | errAlreadyReplaced (msg : String)
  | errOther (msg : String)
  deriving DecidableEq, Repr

/-- Model of the lego `certificate.ObtainRequest` value built at line 153:
`ValidityTo` is a unix timestamp. -/
structure CertObtainRequest where
  domains : List String
  bundle : Bool
  profile : String
  notAfter : Int
  replacesCertID : String
  deriving DecidableEq, Repr

/-- Fields of `ObtainCertificateRequest` that reach the ACME order. -/
structure ObtainCertificateRequest where
  domains : List String
  validityTo : Int
  acmeProfile : String
  ariReplacesAcctUrl : String
  ariReplacesCertId : String
  deriving DecidableEq, Repr

/-- Model of `ObtainCertificateResponse`. -/
structure ObtainCertificateResponse where
  csr : String
  fullChainCertificate : String
  issuerCertificate : String
  privateKey : String
  acmeAcctUrl : String
  acmeCertUrl : String
  acmeCertStableUrl : String
  ariReplaced : Bool
  deriving DecidableEq, Repr

/-- Construction of the ACME order request (source line 153-159): the
`ReplacesCertID` is the request's ARI id only when the ARI account URL equals
the client account's URL, else the empty string. -/
def mkObtainRequest (acctUrl : String) (r : ObtainCertificateRequest) : CertObtainRequest :=
  { domains := r.domains
    bundle := true
    profile := r.acmeProfile
    notAfter := r.validityTo
    replacesCertID := if r.ariReplacesAcctUrl == acctUrl then r.ariReplacesCertId else "" }

/-- Construction of the response (source lines 177-186): fields are trimmed,
and `ARIReplaced` reflects the (possibly retry-cleared) `ReplacesCertID` of
the final request value. -/
def mkObtainResponse (acctUrl : String) (finalReq : CertObtainRequest)
    (res : AcmeResource) : ObtainCertificateResponse :=
  { csr := res.csr.trim
    fullChainCertificate := res.certificate.trim
    issuerCertificate := res.issuerCertificate.trim
    privateKey := res.privateKey.trim
    acmeAcctUrl := acctUrl
    acmeCertUrl := res.certUrl
    acmeCertStableUrl := res.certStableUrl
    ariReplaced := finalReq.replacesCertID != "" }

/-- The obtain driver: a nil request errors; a challenge-setup failure errors
before any ACME call; otherwise the order is sent, and on an
`AlreadyReplacedError` the `ReplacesCertID` is cleared and the order resent
exactly once, any failure of the resend being returned as is. The first
component of the result is the trace of order requests issued. -/
def sendObtainCertificateRequest (acctUrl : String)
    (request : Option ObtainCertificateRequest) (challengeSetup : Except String Unit)
    (o1 o2 : AcmeObtainReply) :
    List CertObtainRequest × Except String ObtainCertificateResponse :=
  match request with
  | none => ([], .error "the request is nil")
  | some r =>
    match challengeSetup with
    | .error m => ([], .error m)
    | .ok _ =>
      let req := mkObtainRequest acctUrl r
      match o1 with
      | .ok res => ([req], .ok (mkObtainResponse acctUrl req res))
      | .errOther m => ([req], .error m)
      | .errAlreadyReplaced _ =>
        let req2 := { req with replacesCertID := "" }
        match o2 with
        | .ok res => ([req, req2], .ok (mkObtainResponse acctUrl req2 res))
        | .errAlreadyReplaced m => ([req, req2], .error m)
        | .errOther m => ([req, req2], .error m)

/-- C5: on a first-obtain ARI conflict the driver clears the replaces id and
retries exactly once without ARI (the trace has exactly two requests and the
retry request's `ReplacesCertID` is empty); any failure of that single retry,
including a second ARI conflict, is returned as fatal with no further call;
and a first failure that is not an ARI conflict is returned immediately with
no retry. -/
theorem acme_ari_retry_exactly_once (acctUrl : String)
    (r : ObtainCertificateRequest) (o2 : AcmeObtainReply) (m : String) :
    (sendObtainCertificateRequest acctUrl (some r) (.ok ()) (.errAlreadyReplaced m) o2).1 =
      [mkObtainRequest acctUrl r, { mkObtainRequest acctUrl r with replacesCertID := "" }] ∧
    (∀ m2, (o2 = .errAlreadyReplaced m2 ∨ o2 = .errOther m2) →
      (sendObtainCertificateRequest acctUrl (some r) (.ok ())
        (.errAlreadyReplaced m) o2).2 = .error m2) ∧
    (sendObtainCertificateRequest acctUrl (some r) (.ok ()) (.errOther m) o2 =
      ([mkObtainRequest acctUrl r], .error m)) := by
  refine ⟨?_, ?_, ?_⟩
  · cases o2 <;> rfl
  · rintro m2 (h | h) <;> subst h <;> rfl
  · rfl

/-- C5 witness: a second ARI conflict on the retry is returned as the fatal
error, at concrete inputs. -/
theorem acme_ari_retry_exactly_once_witness :
    (sendObtainCertificateRequest "https://ca/acct/1"
      (some ⟨["example.com"], 42, "", "https://ca/acct/1", "cert-7"⟩) (.ok ())
      (.errAlreadyReplaced "conflict") (.errAlreadyReplaced "conflict again")).2 =
      .error "conflict again" :=
  (acme_ari_retry_exactly_once "https://ca/acct/1"
    ⟨["example.com"], 42, "", "https://ca/acct/1", "cert-7"⟩
    (.errAlreadyReplaced "conflict again") "conflict").2.1
    "conflict again" (Or.inl rfl)

/-- C6: the first issued ACME order carries `ReplacesCertID` equal to the
request's ARI id exactly when the ARI account URL matches the client account
URL and the empty string otherwise; and when the URLs differ, no issued order
ever carries a non-empty `ReplacesCertID` — a cross-account ARI replacement
id is never sent. -/
theorem acme_replaces_cert_id (acctUrl : String) (r : ObtainCertificateRequest)
    (o1 o2 : AcmeObtainReply) :
    ((sendObtainCertificateRequest acctUrl (some r) (.ok ()) o1 o2).1.head?.map
        (fun q => q.replacesCertID)) =
      some (if r.ariReplacesAcctUrl == acctUrl then r.ariReplacesCertId else "") ∧
    (r.ariReplacesAcctUrl ≠ acctUrl →
      ∀ q ∈ (sendObtainCertificateRequest acctUrl (some r) (.ok ()) o1 o2).1,
        q.replacesCertID = "") := by
  constructor
  · cases o1 <;> first | rfl | (cases o2 <;> rfl)
  · intro hne q hq
    have hif : (if r.ariReplacesAcctUrl == acctUrl then r.ariReplacesCertId else "") = "" := by
      rw [if_neg]
      simp only [beq_iff_eq]
      exact hne
    cases o1 with
    | ok res =>
      simp only [sendObtainCertificateRequest, List.mem_singleton] at hq
      subst hq
      exact hif
    | errOther m =>
      simp only [sendObtainCertificateRequest, List.mem_singleton] at hq
      subst hq
      exact hif
    | errAlreadyReplaced m =>
      cases o2 <;>
        (simp only [sendObtainCertificateRequest, List.mem_cons,
          List.not_mem_nil, or_false] at hq
         rcases hq with hq | hq <;> subst hq
         · exact hif
         · rfl)

/-- C10: for every successful obtain, the response's `ARIReplaced` flag is
true exactly when the final (successful) issued order carried a non-empty
`ReplacesCertID`; in particular the flag is false whenever the ARI-conflict
retry path was taken, and false whenever the request's ARI account URL
differs from the client account URL. -/
theorem acme_ari_replaced_iff_final_request (acctUrl : String)
    (r : ObtainCertificateRequest) (o1 o2 : AcmeObtainReply)
    (resp : ObtainCertificateResponse)
    (h : (sendObtainCertificateRequest acctUrl (some r) (.ok ()) o1 o2).2 = .ok resp) :
    (∃ lastReq,
      (sendObtainCertificateRequest acctUrl (some r) (.ok ()) o1 o2).1.getLast? =
        some lastReq ∧
      resp.ariReplaced = (lastReq.replacesCertID != "")) ∧
    ((∃ m, o1 = .errAlreadyReplaced m) → resp.ariReplaced = false) ∧
    (r.ariReplacesAcctUrl ≠ acctUrl → resp.ariReplaced = false) := by
  have hifne : ∀ hne : r.ariReplacesAcctUrl ≠ acctUrl,
      (if r.ariReplacesAcctUrl == acctUrl then r.ariReplacesCertId else "") = "" := by
    intro hne
    rw [if_neg]
    simp only [beq_iff_eq]
    exact hne
  cases o1 with
  | ok res =>
    simp only [sendObtainCertificateRequest, Except.ok.injEq] at h
    subst h
    refine ⟨⟨mkObtainRequest acctUrl r, rfl, rfl⟩, ?_, ?_⟩
    · rintro ⟨m, hm⟩
      exact absurd hm (by simp)
    · intro hne
      show ((mkObtainRequest acctUrl r).replacesCertID != "") = false
      have : (mkObtainRequest acctUrl r).replacesCertID = "" := hifne hne
      rw [this]
      rfl
  | errOther m =>
    simp only [sendObtainCertificateRequest] at h
    exact absurd h (by simp)
  | errAlreadyReplaced m =>
    cases o2 with
    | ok res =>
      simp only [sendObtainCertificateRequest, Except.ok.injEq] at h
      subst h
      exact ⟨⟨{ mkObtainRequest acctUrl r with replacesCertID := "" }, rfl, rfl⟩,
        fun _ => rfl, fun _ => rfl⟩
    | errAlreadyReplaced m2 =>
      simp only [sendObtainCertificateRequest] at h
      exact absurd h (by simp)
    | errOther m2 =>
      simp only [sendObtainCertificateRequest] at h
      exact absurd h (by simp)

/-- C10 witness: a concrete successful obtain through the ARI-conflict retry
path reports `ARIReplaced = false`. -/
theorem acme_ari_replaced_iff_final_request_witness :
    (mkObtainResponse "https://ca/acct/1"
      { mkObtainRequest "https://ca/acct/1"
          ⟨["example.com"], 42, "", "https://ca/acct/1", "cert-7"⟩ with
        replacesCertID := "" }
      ⟨"c", "f", "i", "k", "u", "s"⟩).ariReplaced = false :=
  (acme_ari_replaced_iff_final_request "https://ca/acct/1"
    ⟨["example.com"], 42, "", "https://ca/acct/1", "cert-7"⟩
    (.errAlreadyReplaced "conflict") (.ok ⟨"c", "f", "i", "k", "u", "s"⟩)
    _ rfl).2.1 ⟨"conflict", rfl⟩

/-- C6 witness: with a mismatching ARI account URL the issued order carries an
empty `ReplacesCertID` even though the request supplied a non-empty ARI id. -/
theorem acme_replaces_cert_id_witness :
    ∀ q ∈ (sendObtainCertificateRequest "https://ca/acct/1"
      (some ⟨["example.com"], 42, "", "https://ca/acct/2", "cert-7"⟩) (.ok ())
      (.ok ⟨"c", "f", "i", "k", "u", "s"⟩) (.ok ⟨"c", "f", "i", "k", "u", "s"⟩)).1,
      q.replacesCertID = "" :=
  (acme_replaces_cert_id "https://ca/acct/1"
    ⟨["example.com"], 42, "", "https://ca/acct/2", "cert-7"⟩
    (.ok ⟨"c", "f", "i", "k", "u", "s"⟩) (.ok ⟨"c", "f", "i", "k", "u", "s"⟩)).2
    (by decide)

/-! ### ctyun AO certificate-store upload-dedup (package ctcccloudao)

Embeds `SSLManagerProvider.Upload`: enumerate the store page by page
(`ao.ListCerts`, page size 1000), pre-filter each candidate on metadata,
escalate to a detail fetch (`ao.QueryCert`) plus content comparison, return
the first full match, otherwise create a new certificate (`ao.CreateCert`)
under a freshly synthesized `certimate-<unix-millis>` name.

The certificate parser `xcert.ParseCertificateFromPEM` and the DER-level
comparator `xcert.EqualCertificatesFromPEM` live outside the excerpt; the
parsed local certificate is taken as an input and the comparator is an
explicit function parameter `equalCerts`. -/

/-- Metadata of the local leaf certificate as parsed from the uploaded PEM.
Validity bounds are unix seconds (X.509 times carry no sub-second part, and
the source compares against `time.Unix(sec, 0)`). -/
structure X509Certificate where
  commonName : String
  dnsNames : List String
  notBefore : Int
  notAfter : Int
  deriving DecidableEq, Repr

/-- One record of the `ao.ListCerts` response page. -/
structure AOCertRecord where
  id : Int
  cn : String
  sans : List String
  issueTime : Int
  expiresTime : Int
  deriving DecidableEq, Repr

/-- ReturnObj of `ao.ListCerts`. -/
structure AOListReturnObj where
  results : List AOCertRecord
  deriving DecidableEq, Repr

/-- Body of a completed `ao.ListCerts` call; `returnObj` is a possibly-nil
pointer. -/
structure AOListCertsResponse where
  returnObj : Option AOListReturnObj
  deriving DecidableEq, Repr

/-- Detail record of `ao.QueryCert`, carrying the full certificate content. -/
structure AOCertDetail where
  id : Int
  name : String
  certs : String
  deriving DecidableEq, Repr

/-- ReturnObj of `ao.QueryCert`; `result` is a possibly-nil pointer. -/
structure AOQueryReturnObj where
  result : Option AOCertDetail
  deriving DecidableEq, Repr

/-- Body of a completed `ao.QueryCert` call; `returnObj` is a possibly-nil
pointer. -/
structure AOQueryCertResponse where
  returnObj : Option AOQueryReturnObj
  deriving DecidableEq, Repr

/-- ReturnObj of `ao.CreateCert`. -/
structure AOCreateReturnObj where
  id : Int
  deriving DecidableEq, Repr

/-- Body of a completed `ao.CreateCert` call. -/
structure AOCreateCertResponse where
  returnObj : Option AOCreateReturnObj
  deriving DecidableEq, Repr

/-- The `ao.CreateCert` request material actually sent. -/
structure AOCreateCertRequest where
  name : String
  certs : String
  key : String
  deriving DecidableEq, Repr

/-- Model of Go `strings.EqualFold`: case-insensitive string equality,
expressed by simple per-character case folding. -/
def eqFold (a b : String) : Bool :=
  a.data.map Char.toLower == b.data.map Char.toLower

/-- The cheap metadata pre-filter applied to each candidate, in source order:
case-insensitive common name, order-sensitive SAN list equality, and the two
validity bounds at second resolution; the source `continue`s on the first
mismatch. -/
def looksLikeSameMetadata (cert : X509Certificate) (r : AOCertRecord) : Bool :=
  eqFold cert.commonName r.cn &&
  cert.dnsNames == r.sans &&
  cert.notBefore == r.issueTime &&
  cert.notAfter == r.expiresTime

/-- Outcome of scanning the candidate records of one page: no candidate fully
matched, a full match was returned, a detail fetch failed, or the nil-pointer
dereference in the match-return path fired. -/
inductive AOScanOutcome where
  | noMatch
  | found (certId : String) (certName : String)
  | failed (msg : String)
  | panicked
  deriving DecidableEq, Repr

/-- Scan of one page's records (the inner loop of Upload). Returns the ids
passed to `ao.QueryCert`, in order, and the outcome. A candidate failing the
metadata pre-filter is skipped with no detail fetch. A candidate passing it
triggers `ao.QueryCert`; a call error aborts the upload; a well-formed detail
with differing content skips the candidate; a well-formed detail with equal
content returns the detail's id and name; a nil `ReturnObj` or nil `Result`
skips the content guard and the match-return path then dereferences the nil
detail — a runtime panic. -/
def aoScanRecords (equalCerts : String → String → Bool)
    (queryCert : Int → Except String AOQueryCertResponse)
    (cert : X509Certificate) (certPEM : String) :
    List AOCertRecord → List Int × AOScanOutcome
  | [] => ([], .noMatch)
  | r :: rs =>
    if looksLikeSameMetadata cert r then
      match queryCert r.id with
      | .error m => ([r.id], .failed ("failed to execute sdk request ao.QueryCert: " ++ m))
      | .ok q =>
        match q.returnObj with
        | some ro =>
          match ro.result with
          | some det =>
            if equalCerts certPEM det.certs then
              ([r.id], .found (toString det.id) det.name)
            else
              let rest := aoScanRecords equalCerts queryCert cert certPEM rs
              (r.id :: rest.1, rest.2)
          | none => ([r.id], .panicked)
        | none => ([r.id], .panicked)
    else
      aoScanRecords equalCerts queryCert cert certPEM rs

/-- Result of Upload, with the nil-pointer panic and the model artefact of
running out of supplied pages as explicit outcomes. -/
inductive AOUploadOutcome where
  | ok (certId : String) (certName : String)
  | err (msg : String)
  | nilPanic
  | outOfPages
  deriving DecidableEq, Repr

/-- Result of the page-enumeration loop: a terminal outcome (match found,
error, or panic), exhaustion with no match (the loop `break`s and Upload
proceeds to create), or exhaustion of the supplied page oracle. -/
inductive AOEnumResult where
  | terminal (out : AOUploadOutcome)
  | exhausted
  | outOfPages
  deriving DecidableEq, Repr

/-- The page-enumeration loop of Upload over the successive `ao.ListCerts`
responses (pages 1, 2, ...): a page-fetch error aborts; a nil `ReturnObj`
skips the scan and breaks; otherwise the page's records are scanned, and on
no match the loop breaks when fewer than 1000 (the requested page size)
results came back, else fetches the next page. Returns the number of pages
fetched, the queried detail ids, and the loop result. -/
def aoEnumerate (equalCerts : String → String → Bool)
    (queryCert : Int → Except String AOQueryCertResponse)
    (cert : X509Certificate) (certPEM : String) :
    List (Except String AOListCertsResponse) → Nat × List Int × AOEnumResult
  | [] => (0, [], .outOfPages)
  | p :: ps =>
    match p with
    | .error m =>
      (1, [], .terminal (.err ("failed to execute sdk request ao.ListCerts: " ++ m)))
    | .ok resp =>
      match resp.returnObj with
      | none => (1, [], .exhausted)
      | some ro =>
        match aoScanRecords equalCerts queryCert cert certPEM ro.results with
        | (qs, .noMatch) =>
          if ro.results.length < 1000 then (1, qs, .exhausted)
          else
            let rest := aoEnumerate equalCerts queryCert cert certPEM ps
            (rest.1 + 1, qs ++ rest.2.1, rest.2.2)
        | (qs, .found i nm) => (1, qs, .terminal (.ok i nm))
        | (qs, .failed m) => (1, qs, .terminal (.err m))
        | (qs, .panicked) => (1, qs, .terminal .nilPanic)

/-- The create phase of Upload: synthesize the certificate name from the
current unix-millisecond time, send `ao.CreateCert` with the full material,
and build the result from the response's possibly-nil `ReturnObj`. -/
def aoCreatePhase (createResp : Except String AOCreateCertResponse)
    (nowMillis : Int) (certPEM privkeyPEM : String) :
    AOUploadOutcome × AOCreateCertRequest :=
  let certName := "certimate-" ++ toString nowMillis
  let req : AOCreateCertRequest := ⟨certName, certPEM, privkeyPEM⟩
  match createResp with
  | .error m => (.err ("failed to execute sdk request ao.CreateCert: " ++ m), req)
  | .ok resp =>
    match resp.returnObj with
    | none => (.nilPanic, req)
    | some ro => (.ok (toString ro.id) certName, req)

/-- Observable trace of one Upload call: its outcome, the number of list
pages fetched, the detail ids queried, and the create requests issued. -/
structure AOUploadTrace where
  outcome : AOUploadOutcome
  pagesFetched : Nat
  queriedIds : List Int
  createReqs : List AOCreateCertRequest
  deriving DecidableEq, Repr

/-- The full ctcccloudao Upload: enumerate and dedup, then create on
exhaustion. -/
def aoUpload (equalCerts : String → String → Bool)
    (queryCert : Int → Except String AOQueryCertResponse)
    (pages : List (Except String AOListCertsResponse))
    (createResp : Except String AOCreateCertResponse)
    (nowMillis : Int) (cert : X509Certificate) (certPEM privkeyPEM : String) :
    AOUploadTrace :=
  match aoEnumerate equalCerts queryCert cert certPEM pages with
  | (n, qs, .terminal out) => ⟨out, n, qs, []⟩
  | (n, qs, .outOfPages) => ⟨.outOfPages, n, qs, []⟩
  | (n, qs, .exhausted) =>
    let created := aoCreatePhase createResp nowMillis certPEM privkeyPEM
    ⟨created.1, n, qs, [created.2]⟩

/-! ### ctyun ELB certificate-store upload-dedup (package ctcccloudelb)

Embeds the ctcccloudelb `SSLManagerProvider.Upload`: one unpaginated
`elb.ListCertificates` call, first record whose content the comparator
accepts wins, otherwise `elb.CreateCertificate` with a fresh client token and
a `certimate-<unix-millis>` name. -/

/-- One record of the `elb.ListCertificates` response. -/
structure ELBCertRecord where
  id : String
  name : String
  certificate : String
  deriving DecidableEq, Repr

/-- ReturnObj of `elb.CreateCertificate`. -/
structure ELBCreateReturnObj where
  id : String
  deriving DecidableEq, Repr

/-- Body of a completed `elb.CreateCertificate` call; `returnObj` is a
possibly-nil pointer. -/
structure ELBCreateCertResponse where
  returnObj : Option ELBCreateReturnObj
  deriving DecidableEq, Repr

/-- The `elb.CreateCertificate` request actually sent. -/
structure ELBCreateCertRequest where
  clientToken : String
  regionID : String
  name : String
  description : String
  certType : String
  certificate : String
  privateKey : String
  deriving DecidableEq, Repr

/-- Result of the ctcccloudelb Upload. -/
inductive ELBUploadOutcome where
  | ok (certId : String) (certName : String)
  | err (msg : String)
  | nilPanic
  deriving DecidableEq, Repr

/-- Observable trace of one ctcccloudelb Upload call. -/
structure ELBUploadTrace where
  outcome : ELBUploadOutcome
  createReqs : List ELBCreateCertRequest
  deriving DecidableEq, Repr

/-- The linear search of the record loop: first record whose stored content
the comparator accepts. -/
def elbFindMatch (equalCerts : String → String → Bool) (certPEM : String) :
    List ELBCertRecord → Option ELBCertRecord
  | [] => none
  | r :: rs =>
    if equalCerts certPEM r.certificate then some r
    else elbFindMatch equalCerts certPEM rs

/-- The full ctcccloudelb Upload: list once, return the first content match,
else create under a synthesized name with a fresh client token
(`generateClientToken`, a random uuid, is the `clientToken` parameter). -/
def elbUpload (equalCerts : String → String → Bool)
    (listResp : Except String (List ELBCertRecord))
    (createResp : Except String ELBCreateCertResponse)
    (nowMillis : Int) (clientToken regionId : String)
    (certPEM privkeyPEM : String) : ELBUploadTrace :=
  match listResp with
  | .error m => ⟨.err ("failed to execute sdk request elb.ListCertificates: " ++ m), []⟩
  | .ok records =>
    match elbFindMatch equalCerts certPEM records with
    | some r => ⟨.ok r.id r.name, []⟩
    | none =>
      let certName := "certimate-" ++ toString nowMillis
      let req : ELBCreateCertRequest :=
        ⟨clientToken, regionId, certName, "upload from certimate", "Server",
          certPEM, privkeyPEM⟩
      match createResp with
      | .error m =>
        ⟨.err ("failed to execute sdk request elb.CreateCertificate: " ++ m), [req]⟩
      | .ok resp =>
        match resp.returnObj with
        | none => ⟨.nilPanic, [req]⟩
        | some ro => ⟨.ok ro.id certName, [req]⟩

/-! ### Properties of the upload-dedup protocol -/

/-- Proposition: the record loop passes over this candidate — either the
metadata pre-filter rejects it, or its detail is well-formed and the content
comparison rejects it. -/
def AORecordSkipped (equalCerts : String → String → Bool)
    (queryCert : Int → Except String AOQueryCertResponse)
    (cert : X509Certificate) (certPEM : String) (r : AOCertRecord) : Prop :=
  looksLikeSameMetadata cert r = false ∨
  ∃ det, queryCert r.id = .ok ⟨some ⟨some det⟩⟩ ∧ equalCerts certPEM det.certs = false

/-- Unfolding equation of the record scan on a non-empty record list. -/
theorem aoScanRecords_cons (equalCerts : String → String → Bool)
    (queryCert : Int → Except String AOQueryCertResponse)
    (cert : X509Certificate) (certPEM : String) (r : AOCertRecord)
    (rs : List AOCertRecord) :
    aoScanRecords equalCerts queryCert cert certPEM (r :: rs) =
      if looksLikeSameMetadata cert r then
        match queryCert r.id with
        | .error m => ([r.id], .failed ("failed to execute sdk request ao.QueryCert: " ++ m))
        | .ok q =>
          match q.returnObj with
          | some ro =>
            match ro.result with
            | some det =>
              if equalCerts certPEM det.certs then
                ([r.id], .found (toString det.id) det.name)
              else
                let rest := aoScanRecords equalCerts queryCert cert certPEM rs
                (r.id :: rest.1, rest.2)
            | none => ([r.id], .panicked)
          | none => ([r.id], .panicked)
      else
        aoScanRecords equalCerts queryCert cert certPEM rs := rfl

/-- A skipped candidate leaves the scan outcome of the remaining records
unchanged. -/
theorem aoScanRecords_skip (equalCerts : String → String → Bool)
    (queryCert : Int → Except String AOQueryCertResponse)
    (cert : X509Certificate) (certPEM : String) (r : AOCertRecord)
    (rs : List AOCertRecord)
    (hs : AORecordSkipped equalCerts queryCert cert certPEM r) :
    (aoScanRecords equalCerts queryCert cert certPEM (r :: rs)).2 =
      (aoScanRecords equalCerts queryCert cert certPEM rs).2 := by
  by_cases hm : looksLikeSameMetadata cert r = true
  · rcases hs with hm' | ⟨det, hq, hne⟩
    · rw [hm] at hm'
      exact absurd hm' (by simp)
    · simp only [aoScanRecords_cons, hm, if_true, hq, hne]
      simp
  · simp only [Bool.not_eq_true] at hm
    simp only [aoScanRecords_cons, hm]
    simp

/-- A candidate passing the pre-filter whose well-formed detail has equal
content terminates the scan with the detail's id and name, after exactly one
detail fetch. -/
theorem aoScanRecords_found (equalCerts : String → String → Bool)
    (queryCert : Int → Except String AOQueryCertResponse)
    (cert : X509Certificate) (certPEM : String) (r : AOCertRecord)
    (rs : List AOCertRecord) (det : AOCertDetail)
    (hm : looksLikeSameMetadata cert r = true)
    (hq : queryCert r.id = .ok ⟨some ⟨some det⟩⟩)
    (he : equalCerts certPEM det.certs = true) :
    aoScanRecords equalCerts queryCert cert certPEM (r :: rs) =
      ([r.id], .found (toString det.id) det.name) := by
  simp only [aoScanRecords_cons, hm, if_true, hq, he]

/-- First match wins within one page: skipped candidates before a full match
do not affect the outcome. -/
theorem aoScanRecords_first_match (equalCerts : String → String → Bool)
    (queryCert : Int → Except String AOQueryCertResponse)
    (cert : X509Certificate) (certPEM : String) (rs1 : List AOCertRecord)
    (r : AOCertRecord) (rs2 : List AOCertRecord) (det : AOCertDetail)
    (hskip : ∀ x ∈ rs1, AORecordSkipped equalCerts queryCert cert certPEM x)
    (hm : looksLikeSameMetadata cert r = true)
    (hq : queryCert r.id = .ok ⟨some ⟨some det⟩⟩)
    (he : equalCerts certPEM det.certs = true) :
    (aoScanRecords equalCerts queryCert cert certPEM (rs1 ++ r :: rs2)).2 =
      .found (toString det.id) det.name := by
  induction rs1 with
  | nil =>
    rw [List.nil_append,
      aoScanRecords_found equalCerts queryCert cert certPEM r rs2 det hm hq he]
  | cons x xs ih =>
    rw [List.cons_append,
      aoScanRecords_skip equalCerts queryCert cert certPEM x (xs ++ r :: rs2)
        (hskip x (by simp))]
    exact ih (fun y hy => hskip y (by simp [hy]))

/-- Unfolding equation of the page-enumeration loop on a non-empty page
list. -/
theorem aoEnumerate_cons (equalCerts : String → String → Bool)
    (queryCert : Int → Except String AOQueryCertResponse)
    (cert : X509Certificate) (certPEM : String)
    (p : Except String AOListCertsResponse)
    (ps : List (Except String AOListCertsResponse)) :
    aoEnumerate equalCerts queryCert cert certPEM (p :: ps) =
      match p with
      | .error m =>
        (1, [], .terminal (.err ("failed to execute sdk request ao.ListCerts: " ++ m)))
      | .ok resp =>
        match resp.returnObj with
        | none => (1, [], .exhausted)
        | some ro =>
          match aoScanRecords equalCerts queryCert cert certPEM ro.results with
          | (qs, .noMatch) =>
            if ro.results.length < 1000 then (1, qs, .exhausted)
            else
              let rest := aoEnumerate equalCerts queryCert cert certPEM ps
              (rest.1 + 1, qs ++ rest.2.1, rest.2.2)
          | (qs, .found i nm) => (1, qs, .terminal (.ok i nm))
          | (qs, .failed m) => (1, qs, .terminal (.err m))
          | (qs, .panicked) => (1, qs, .terminal .nilPanic) := rfl

/-- Proposition: this page keeps the enumeration going — it lists a full page
(at least the requested 1000 results) and no candidate on it matches. -/
def AOPageContinues (equalCerts : String → String → Bool)
    (queryCert : Int → Except String AOQueryCertResponse)
    (cert : X509Certificate) (certPEM : String)
    (p : Except String AOListCertsResponse) : Prop :=
  ∃ ro, p = .ok ⟨some ro⟩ ∧
    (aoScanRecords equalCerts queryCert cert certPEM ro.results).2 = .noMatch ∧
    1000 ≤ ro.results.length

/-- Enumeration passes through a run of continuing pages, adding their count
to the pages fetched and leaving the loop result unchanged. -/
theorem aoEnumerate_through_continuing (equalCerts : String → String → Bool)
    (queryCert : Int → Except String AOQueryCertResponse)
    (cert : X509Certificate) (certPEM : String)
    (before rest : List (Except String AOListCertsResponse))
    (hb : ∀ p ∈ before, AOPageContinues equalCerts queryCert cert certPEM p) :
    (aoEnumerate equalCerts queryCert cert certPEM (before ++ rest)).1 =
      (aoEnumerate equalCerts queryCert cert certPEM rest).1 + before.length ∧
    (aoEnumerate equalCerts queryCert cert certPEM (before ++ rest)).2.2 =
      (aoEnumerate equalCerts queryCert cert certPEM rest).2.2 := by
  induction before with
  | nil => simp
  | cons p ps ih =>
    obtain ⟨ro, hp, hscan, hlen⟩ := hb p (by simp)
    subst hp
    have hnotlt : ¬ ro.results.length < 1000 := by omega
    obtain ⟨qs, hqs⟩ : ∃ qs,
        aoScanRecords equalCerts queryCert cert certPEM ro.results = (qs, .noMatch) :=
      ⟨(aoScanRecords equalCerts queryCert cert certPEM ro.results).1, by rw [← hscan]⟩
    obtain ⟨h1, h2⟩ := ih (fun q hq => hb q (by simp [hq]))
    constructor
    · rw [List.cons_append, aoEnumerate_cons]
      simp only [hqs]
      rw [if_neg hnotlt]
      show (aoEnumerate equalCerts queryCert cert certPEM (ps ++ rest)).1 + 1 = _
      rw [h1]
      simp only [List.length_cons]
      omega
    · rw [List.cons_append, aoEnumerate_cons]
      simp only [hqs]
      rw [if_neg hnotlt]
      exact h2

/-- The create phase always sends exactly the synthesized name and the full
uploaded material, whatever the vendor answers. -/
theorem aoCreatePhase_request (c : Except String AOCreateCertResponse)
    (n : Int) (pem key : String) :
    (aoCreatePhase c n pem key).2 = ⟨"certimate-" ++ toString n, pem, key⟩ := by
  unfold aoCreatePhase
  cases c with
  | error m => rfl
  | ok resp =>
    obtain ⟨ro⟩ := resp
    cases ro <;> rfl

/-- When the enumeration ends in a terminal outcome, Upload returns it with
no create call and the enumeration's page count. -/
theorem aoUpload_terminal (equalCerts : String → String → Bool)
    (queryCert : Int → Except String AOQueryCertResponse)
    (pages : List (Except String AOListCertsResponse))
    (createResp : Except String AOCreateCertResponse) (nowMillis : Int)
    (cert : X509Certificate) (certPEM privkeyPEM : String) (out : AOUploadOutcome)
    (h : (aoEnumerate equalCerts queryCert cert certPEM pages).2.2 = .terminal out) :
    (aoUpload equalCerts queryCert pages createResp nowMillis cert certPEM privkeyPEM).outcome = out ∧
    (aoUpload equalCerts queryCert pages createResp nowMillis cert certPEM privkeyPEM).createReqs = [] ∧
    (aoUpload equalCerts queryCert pages createResp nowMillis cert certPEM privkeyPEM).pagesFetched =
      (aoEnumerate equalCerts queryCert cert certPEM pages).1 := by
  obtain ⟨n, qs, hE⟩ : ∃ n qs,
      aoEnumerate equalCerts queryCert cert certPEM pages = (n, qs, .terminal out) :=
    ⟨(aoEnumerate equalCerts queryCert cert certPEM pages).1,
     (aoEnumerate equalCerts queryCert cert certPEM pages).2.1, by rw [← h]⟩
  unfold aoUpload
  rw [hE]
  exact ⟨rfl, rfl, rfl⟩

/-- When the enumeration exhausts with no match, Upload runs the create phase
and issues exactly one create request. -/
theorem aoUpload_exhausted (equalCerts : String → String → Bool)
    (queryCert : Int → Except String AOQueryCertResponse)
    (pages : List (Except String AOListCertsResponse))
    (createResp : Except String AOCreateCertResponse) (nowMillis : Int)
    (cert : X509Certificate) (certPEM privkeyPEM : String)
    (h : (aoEnumerate equalCerts queryCert cert certPEM pages).2.2 = .exhausted) :
    (aoUpload equalCerts queryCert pages createResp nowMillis cert certPEM privkeyPEM).outcome =
      (aoCreatePhase createResp nowMillis certPEM privkeyPEM).1 ∧
    (aoUpload equalCerts queryCert pages createResp nowMillis cert certPEM privkeyPEM).createReqs =
      [(aoCreatePhase createResp nowMillis certPEM privkeyPEM).2] := by
  obtain ⟨n, qs, hE⟩ : ∃ n qs,
      aoEnumerate equalCerts queryCert cert certPEM pages = (n, qs, .exhausted) :=
    ⟨(aoEnumerate equalCerts queryCert cert certPEM pages).1,
     (aoEnumerate equalCerts queryCert cert certPEM pages).2.1, by rw [← h]⟩
  unfold aoUpload
  rw [hE]
  exact ⟨rfl, rfl⟩

/-- Unfolding equation of the ELB record loop on a non-empty record list. -/
theorem elbFindMatch_cons (equalCerts : String → String → Bool) (certPEM : String)
    (r : ELBCertRecord) (rs : List ELBCertRecord) :
    elbFindMatch equalCerts certPEM (r :: rs) =
      if equalCerts certPEM r.certificate then some r
      else elbFindMatch equalCerts certPEM rs := rfl

/-- First match wins in the ELB record loop. -/
theorem elbFindMatch_first (equalCerts : String → String → Bool) (certPEM : String)
    (rs1 : List ELBCertRecord) (r : ELBCertRecord) (rs2 : List ELBCertRecord)
    (hf : ∀ x ∈ rs1, equalCerts certPEM x.certificate = false)
    (hm : equalCerts certPEM r.certificate = true) :
    elbFindMatch equalCerts certPEM (rs1 ++ r :: rs2) = some r := by
  induction rs1 with
  | nil =>
    rw [List.nil_append, elbFindMatch_cons, if_pos hm]
  | cons x xs ih =>
    rw [List.cons_append, elbFindMatch_cons, if_neg]
    · exact ih (fun y hy => hf y (by simp [hy]))
    · simp [hf x (by simp)]

/-- C3: when the vendor inventory contains a record matching the uploaded
material — metadata pre-filter passes and the detail content matches — and
every earlier candidate and page is passed over, Upload returns the matched
record's detail id and name, never calls the vendor create operation, and
fetches no page beyond the one containing the match; the corresponding
statement holds for the single-list ctcccloudelb Upload, whose first
content-matching record wins with no create call. -/
theorem upload_dedup_first_match_wins :
    (∀ (equalCerts : String → String → Bool)
       (queryCert : Int → Except String AOQueryCertResponse)
       (before ps : List (Except String AOListCertsResponse))
       (createResp : Except String AOCreateCertResponse) (nowMillis : Int)
       (cert : X509Certificate) (certPEM privkeyPEM : String)
       (ro : AOListReturnObj) (rs1 : List AOCertRecord) (r : AOCertRecord)
       (rs2 : List AOCertRecord) (det : AOCertDetail),
      (∀ q ∈ before, AOPageContinues equalCerts queryCert cert certPEM q) →
      ro.results = rs1 ++ r :: rs2 →
      (∀ x ∈ rs1, AORecordSkipped equalCerts queryCert cert certPEM x) →
      looksLikeSameMetadata cert r = true →
      queryCert r.id = .ok ⟨some ⟨some det⟩⟩ →
      equalCerts certPEM det.certs = true →
      (aoUpload equalCerts queryCert (before ++ .ok ⟨some ro⟩ :: ps) createResp
          nowMillis cert certPEM privkeyPEM).outcome =
        .ok (toString det.id) det.name ∧
      (aoUpload equalCerts queryCert (before ++ .ok ⟨some ro⟩ :: ps) createResp
          nowMillis cert certPEM privkeyPEM).createReqs = [] ∧
      (aoUpload equalCerts queryCert (before ++ .ok ⟨some ro⟩ :: ps) createResp
          nowMillis cert certPEM privkeyPEM).pagesFetched = before.length + 1) ∧
    (∀ (equalCerts : String → String → Bool)
       (rs1 : List ELBCertRecord) (r : ELBCertRecord) (rs2 : List ELBCertRecord)
       (createResp : Except String ELBCreateCertResponse) (nowMillis : Int)
       (clientToken regionId certPEM privkeyPEM : String),
      (∀ x ∈ rs1, equalCerts certPEM x.certificate = false) →
      equalCerts certPEM r.certificate = true →
      (elbUpload equalCerts (.ok (rs1 ++ r :: rs2)) createResp nowMillis
          clientToken regionId certPEM privkeyPEM).outcome = .ok r.id r.name ∧
      (elbUpload equalCerts (.ok (rs1 ++ r :: rs2)) createResp nowMillis
          clientToken regionId certPEM privkeyPEM).createReqs = []) := by
  constructor
  · intro equalCerts queryCert before ps createResp nowMillis cert certPEM privkeyPEM
      ro rs1 r rs2 det hb hres hskip hm hq he
    have hscan2 : (aoScanRecords equalCerts queryCert cert certPEM ro.results).2 =
        .found (toString det.id) det.name := by
      rw [hres]
      exact aoScanRecords_first_match equalCerts queryCert cert certPEM rs1 r rs2 det
        hskip hm hq he
    obtain ⟨qs, hqs⟩ : ∃ qs, aoScanRecords equalCerts queryCert cert certPEM ro.results =
        (qs, .found (toString det.id) det.name) :=
      ⟨(aoScanRecords equalCerts queryCert cert certPEM ro.results).1, by rw [← hscan2]⟩
    have hrest : aoEnumerate equalCerts queryCert cert certPEM (.ok ⟨some ro⟩ :: ps) =
        (1, qs, .terminal (.ok (toString det.id) det.name)) := by
      rw [aoEnumerate_cons]
      simp only [hqs]
    have hth := aoEnumerate_through_continuing equalCerts queryCert cert certPEM
      before (.ok ⟨some ro⟩ :: ps) hb
    have hterm : (aoEnumerate equalCerts queryCert cert certPEM
        (before ++ .ok ⟨some ro⟩ :: ps)).2.2 =
        .terminal (.ok (toString det.id) det.name) := by
      rw [hth.2, hrest]
    have hpages : (aoEnumerate equalCerts queryCert cert certPEM
        (before ++ .ok ⟨some ro⟩ :: ps)).1 = before.length + 1 := by
      rw [hth.1, hrest]
      omega
    obtain ⟨ho, hc, hp⟩ := aoUpload_terminal equalCerts queryCert
      (before ++ .ok ⟨some ro⟩ :: ps) createResp nowMillis cert certPEM privkeyPEM
      (.ok (toString det.id) det.name) hterm
    exact ⟨ho, hc, by rw [hp, hpages]⟩
  · intro equalCerts rs1 r rs2 createResp nowMillis clientToken regionId
      certPEM privkeyPEM hf hm
    have hfind := elbFindMatch_first equalCerts certPEM rs1 r rs2 hf hm
    simp only [elbUpload, hfind]
    exact ⟨trivial, trivial⟩

/-- C3 witness: a store whose single page holds one fully matching record
makes Upload return that record's detail id and name with no create call and
exactly one page fetched. -/
theorem upload_dedup_first_match_wins_witness :
    (aoUpload (fun a b => a == b)
      (fun _ => .ok ⟨some ⟨some ⟨7, "mycert", "PEMDATA"⟩⟩⟩)
      [.ok ⟨some ⟨[⟨7, "example.com", ["example.com"], 100, 200⟩]⟩⟩]
      (.error "unused") 123 ⟨"example.com", ["example.com"], 100, 200⟩
      "PEMDATA" "KEY").outcome = .ok "7" "mycert" ∧
    (elbUpload (fun a b => a == b) (.ok [⟨"id1", "name1", "PEMDATA"⟩])
      (.error "unused") 123 "token" "region" "PEMDATA" "KEY").outcome =
      .ok "id1" "name1" :=
  ⟨(upload_dedup_first_match_wins.1 (fun a b => a == b)
      (fun _ => .ok ⟨some ⟨some ⟨7, "mycert", "PEMDATA"⟩⟩⟩)
      [] [] (.error "unused") 123 ⟨"example.com", ["example.com"], 100, 200⟩
      "PEMDATA" "KEY" ⟨[⟨7, "example.com", ["example.com"], 100, 200⟩]⟩
      [] ⟨7, "example.com", ["example.com"], 100, 200⟩ [] ⟨7, "mycert", "PEMDATA"⟩
      (by simp) rfl (by simp) (by decide) rfl (by decide)).1,
   (upload_dedup_first_match_wins.2 (fun a b => a == b)
      [] ⟨"id1", "name1", "PEMDATA"⟩ [] (.error "unused") 123 "token" "region"
      "PEMDATA" "KEY" (by simp) (by decide)).1⟩

/-- C4: the metadata pre-filter rejects a candidate on any mismatch of
common name (case-insensitively), SAN list (order-sensitively) or either
validity bound; a rejected candidate is skipped with no detail-fetch call
(the scan of the remaining records is unchanged); and only a candidate
passing the full pre-filter escalates to the detail fetch (its id heads the
list of queried ids). In particular any SAN difference, in entries or order,
rejects the candidate. -/
theorem metadata_prefilter_policy :
    (∀ (cert : X509Certificate) (r : AOCertRecord), cert.dnsNames ≠ r.sans →
      looksLikeSameMetadata cert r = false) ∧
    (∀ (cert : X509Certificate) (r : AOCertRecord),
      eqFold cert.commonName r.cn = false → looksLikeSameMetadata cert r = false) ∧
    (∀ (cert : X509Certificate) (r : AOCertRecord), cert.notBefore ≠ r.issueTime →
      looksLikeSameMetadata cert r = false) ∧
    (∀ (cert : X509Certificate) (r : AOCertRecord), cert.notAfter ≠ r.expiresTime →
      looksLikeSameMetadata cert r = false) ∧
    (∀ (equalCerts : String → String → Bool)
       (queryCert : Int → Except String AOQueryCertResponse)
       (cert : X509Certificate) (certPEM : String) (r : AOCertRecord)
       (rs : List AOCertRecord), looksLikeSameMetadata cert r = false →
      aoScanRecords equalCerts queryCert cert certPEM (r :: rs) =
        aoScanRecords equalCerts queryCert cert certPEM rs) ∧
    (∀ (equalCerts : String → String → Bool)
       (queryCert : Int → Except String AOQueryCertResponse)
       (cert : X509Certificate) (certPEM : String) (r : AOCertRecord)
       (rs : List AOCertRecord), looksLikeSameMetadata cert r = true →
      ∃ t, (aoScanRecords equalCerts queryCert cert certPEM (r :: rs)).1 = r.id :: t) := by
  refine ⟨?_, ?_, ?_, ?_, ?_, ?_⟩
  · intro cert r h
    simp only [looksLikeSameMetadata]
    have : (cert.dnsNames == r.sans) = false := by
      simp only [beq_eq_false_iff_ne, ne_eq]
      exact h
    rw [this]
    simp
  · intro cert r h
    simp only [looksLikeSameMetadata, h]
    simp
  · intro cert r h
    simp only [looksLikeSameMetadata]
    have : (cert.notBefore == r.issueTime) = false := by
      simp only [beq_eq_false_iff_ne, ne_eq]
      exact h
    rw [this]
    simp
  · intro cert r h
    simp only [looksLikeSameMetadata]
    have : (cert.notAfter == r.expiresTime) = false := by
      simp only [beq_eq_false_iff_ne, ne_eq]
      exact h
    rw [this]
    simp
  · intro equalCerts queryCert cert certPEM r rs h
    rw [aoScanRecords_cons, if_neg]
    rw [h]
    simp
  · intro equalCerts queryCert cert certPEM r rs h
    cases hq : queryCert r.id with
    | error m =>
      refine ⟨[], ?_⟩
      simp [aoScanRecords_cons, if_pos h, hq]
    | ok q =>
      cases hro : q.returnObj with
      | none =>
        refine ⟨[], ?_⟩
        simp [aoScanRecords_cons, if_pos h, hq, hro]
      | some ro =>
        cases hres : ro.result with
        | none =>
          refine ⟨[], ?_⟩
          simp [aoScanRecords_cons, if_pos h, hq, hro, hres]
        | some det =>
          cases he : equalCerts certPEM det.certs with
          | true =>
            refine ⟨[], ?_⟩
            simp [aoScanRecords_cons, if_pos h, hq, hro, hres, he]
          | false =>
            refine ⟨(aoScanRecords equalCerts queryCert cert certPEM rs).1, ?_⟩
            simp [aoScanRecords_cons, if_pos h, hq, hro, hres, he]

/-- C4 witness: a candidate whose SAN list holds the same entries in a
different order is rejected by the pre-filter; a rejected candidate triggers
no detail fetch; a fully matching candidate is queried for detail. -/
theorem metadata_prefilter_policy_witness :
    looksLikeSameMetadata ⟨"cn", ["a.org", "b.org"], 0, 1⟩
      ⟨1, "cn", ["b.org", "a.org"], 0, 1⟩ = false ∧
    aoScanRecords (fun _ _ => true) (fun _ => .error "down")
      ⟨"cn", ["a.org", "b.org"], 0, 1⟩ "PEM" [⟨1, "cn", ["b.org", "a.org"], 0, 1⟩] =
      aoScanRecords (fun _ _ => true) (fun _ => .error "down")
        ⟨"cn", ["a.org", "b.org"], 0, 1⟩ "PEM" [] ∧
    (∃ t, (aoScanRecords (fun _ _ => true) (fun _ => .error "down")
      ⟨"CN", ["a.org"], 0, 1⟩ "PEM" [⟨1, "cn", ["a.org"], 0, 1⟩]).1 = 1 :: t) :=
  ⟨metadata_prefilter_policy.1 ⟨"cn", ["a.org", "b.org"], 0, 1⟩
      ⟨1, "cn", ["b.org", "a.org"], 0, 1⟩ (by decide),
   metadata_prefilter_policy.2.2.2.2.1 (fun _ _ => true) (fun _ => .error "down")
      ⟨"cn", ["a.org", "b.org"], 0, 1⟩ "PEM" ⟨1, "cn", ["b.org", "a.org"], 0, 1⟩ []
      (by decide),
   metadata_prefilter_policy.2.2.2.2.2 (fun _ _ => true) (fun _ => .error "down")
      ⟨"CN", ["a.org"], 0, 1⟩ "PEM" ⟨1, "cn", ["a.org"], 0, 1⟩ [] (by decide)⟩

/-- C7: whenever the enumeration exhausts with no match, Upload issues
exactly one create call carrying the full certificate material under the
freshly synthesized name `certimate-` followed by the current
unix-millisecond time, and on create success returns the created vendor id
with that synthesized name; likewise for the ctcccloudelb Upload, whose
create request additionally carries the client token, region, fixed
description and type. -/
theorem upload_creates_on_exhaustion :
    (∀ (equalCerts : String → String → Bool)
       (queryCert : Int → Except String AOQueryCertResponse)
       (pages : List (Except String AOListCertsResponse))
       (createResp : Except String AOCreateCertResponse) (nowMillis : Int)
       (cert : X509Certificate) (certPEM privkeyPEM : String),
      (aoEnumerate equalCerts queryCert cert certPEM pages).2.2 = .exhausted →
      (aoUpload equalCerts queryCert pages createResp nowMillis cert certPEM
          privkeyPEM).createReqs =
        [⟨"certimate-" ++ toString nowMillis, certPEM, privkeyPEM⟩] ∧
      ∀ cid, createResp = .ok ⟨some ⟨cid⟩⟩ →
        (aoUpload equalCerts queryCert pages createResp nowMillis cert certPEM
            privkeyPEM).outcome =
          .ok (toString cid) ("certimate-" ++ toString nowMillis)) ∧
    (∀ (equalCerts : String → String → Bool) (records : List ELBCertRecord)
       (createResp : Except String ELBCreateCertResponse) (nowMillis : Int)
       (clientToken regionId certPEM privkeyPEM : String),
      elbFindMatch equalCerts certPEM records = none →
      (elbUpload equalCerts (.ok records) createResp nowMillis clientToken
          regionId certPEM privkeyPEM).createReqs =
        [⟨clientToken, regionId, "certimate-" ++ toString nowMillis,
          "upload from certimate", "Server", certPEM, privkeyPEM⟩] ∧
      ∀ cid, createResp = .ok ⟨some ⟨cid⟩⟩ →
        (elbUpload equalCerts (.ok records) createResp nowMillis clientToken
            regionId certPEM privkeyPEM).outcome =
          .ok cid ("certimate-" ++ toString nowMillis)) := by
  constructor
  · intro equalCerts queryCert pages createResp nowMillis cert certPEM privkeyPEM h
    obtain ⟨ho, hc⟩ := aoUpload_exhausted equalCerts queryCert pages createResp
      nowMillis cert certPEM privkeyPEM h
    refine ⟨?_, ?_⟩
    · rw [hc, aoCreatePhase_request]
    · intro cid hcr
      subst hcr
      rw [ho]
      rfl
  · intro equalCerts records createResp nowMillis clientToken regionId
      certPEM privkeyPEM h
    refine ⟨?_, ?_⟩
    · simp only [elbUpload, h]
      cases createResp with
      | error m => rfl
      | ok resp =>
        obtain ⟨ro⟩ := resp
        cases ro <;> rfl
    · intro cid hcr
      subst hcr
      simp only [elbUpload, h]

/-- C7 witness: on a store whose single page is empty, Upload creates once
with the synthesized name and returns the new vendor id, for both
providers. -/
theorem upload_creates_on_exhaustion_witness :
    (aoUpload (fun a b => a == b) (fun _ => .error "down") [.ok ⟨some ⟨[]⟩⟩]
      (.ok ⟨some ⟨9⟩⟩) 123 ⟨"cn", ["d.org"], 0, 1⟩ "PEM" "KEY").createReqs =
      [⟨"certimate-123", "PEM", "KEY"⟩] ∧
    (aoUpload (fun a b => a == b) (fun _ => .error "down") [.ok ⟨some ⟨[]⟩⟩]
      (.ok ⟨some ⟨9⟩⟩) 123 ⟨"cn", ["d.org"], 0, 1⟩ "PEM" "KEY").outcome =
      .ok "9" "certimate-123" ∧
    (elbUpload (fun a b => a == b) (.ok []) (.ok ⟨some ⟨"newid"⟩⟩) 123 "tok" "reg"
      "PEM" "KEY").outcome = .ok "newid" "certimate-123" :=
  ⟨(upload_creates_on_exhaustion.1 (fun a b => a == b) (fun _ => .error "down")
      [.ok ⟨some ⟨[]⟩⟩] (.ok ⟨some ⟨9⟩⟩) 123 ⟨"cn", ["d.org"], 0, 1⟩ "PEM" "KEY"
      rfl).1,
   (upload_creates_on_exhaustion.1 (fun a b => a == b) (fun _ => .error "down")
      [.ok ⟨some ⟨[]⟩⟩] (.ok ⟨some ⟨9⟩⟩) 123 ⟨"cn", ["d.org"], 0, 1⟩ "PEM" "KEY"
      rfl).2 9 rfl,
   (upload_creates_on_exhaustion.2 (fun a b => a == b) [] (.ok ⟨some ⟨"newid"⟩⟩)
      123 "tok" "reg" "PEM" "KEY" rfl).2 "newid" rfl⟩

/-- C9: in the ctcccloudao match path, when a candidate passes every
metadata check and `ao.QueryCert` succeeds but its body has a nil `ReturnObj`
or a nil `Result`, the content-comparison guard is skipped, the candidate is
treated as a match, and Upload dereferences the nil detail while building the
returned id and name — a nil-pointer crash, not a returned error. -/
theorem ao_nil_detail_crashes (equalCerts : String → String → Bool)
    (queryCert : Int → Except String AOQueryCertResponse)
    (cert : X509Certificate) (certPEM : String) (r : AOCertRecord)
    (rs : List AOCertRecord) (q : AOQueryCertResponse)
    (hm : looksLikeSameMetadata cert r = true)
    (hq : queryCert r.id = .ok q)
    (hbad : q.returnObj = none ∨ ∃ ro, q.returnObj = some ro ∧ ro.result = none) :
    aoScanRecords equalCerts queryCert cert certPEM (r :: rs) =
      ([r.id], .panicked) ∧
    ∀ (more : List (Except String AOListCertsResponse))
      (createResp : Except String AOCreateCertResponse) (nowMillis : Int)
      (privkeyPEM : String),
      (aoUpload equalCerts queryCert (.ok ⟨some ⟨r :: rs⟩⟩ :: more) createResp
          nowMillis cert certPEM privkeyPEM).outcome = .nilPanic ∧
      ∀ m, (aoUpload equalCerts queryCert (.ok ⟨some ⟨r :: rs⟩⟩ :: more) createResp
          nowMillis cert certPEM privkeyPEM).outcome ≠ .err m := by
  have hscan : aoScanRecords equalCerts queryCert cert certPEM (r :: rs) =
      ([r.id], .panicked) := by
    rw [aoScanRecords_cons, if_pos hm, hq]
    rcases hbad with hnil | ⟨ro, hro, hres⟩
    · simp only [hnil]
    · simp only [hro, hres]
  refine ⟨hscan, ?_⟩
  intro more createResp nowMillis privkeyPEM
  have hterm : (aoEnumerate equalCerts queryCert cert certPEM
      (.ok ⟨some ⟨r :: rs⟩⟩ :: more)).2.2 = .terminal .nilPanic := by
    rw [aoEnumerate_cons]
    simp only [hscan]
  obtain ⟨ho, -, -⟩ := aoUpload_terminal equalCerts queryCert
    (.ok ⟨some ⟨r :: rs⟩⟩ :: more) createResp nowMillis cert certPEM privkeyPEM
    .nilPanic hterm
  refine ⟨ho, ?_⟩
  intro m
  rw [ho]
  simp

/-- C9 witness: a concrete store whose detail response has a nil `ReturnObj`
drives Upload into the nil-pointer crash outcome. -/
theorem ao_nil_detail_crashes_witness :
    (aoUpload (fun a b => a == b) (fun _ => .ok ⟨none⟩)
      [.ok ⟨some ⟨[⟨3, "cn", ["d.org"], 1, 2⟩]⟩⟩] (.error "unused") 0
      ⟨"cn", ["d.org"], 1, 2⟩ "PEM" "KEY").outcome = .nilPanic :=
  ((ao_nil_detail_crashes (fun a b => a == b) (fun _ => .ok ⟨none⟩)
      ⟨"cn", ["d.org"], 1, 2⟩ "PEM" ⟨3, "cn", ["d.org"], 1, 2⟩ [] ⟨none⟩
      (by decide) rfl (Or.inl rfl)).2 [] (.error "unused") 0 "KEY").1

end Certimate
